import Mathlib

/-!
Verification development for the knowledge-graph store and heuristic
relationship-inference engine of the `safe-smart-contracts` repository
(`scripts/cocoindex/knowledge_graph.py`, `scripts/cocoindex/auto_enhance.py`,
`scripts/cocoindex/enhance_knowledge_graph.py`).

The Python code is shallowly embedded: the SQLite `nodes`, `edges`,
`search_index` tables become lists, node/edge JSON payloads become records
holding exactly the fields the code reads or writes, the filesystem becomes a
map from path to a file state (missing / existing-but-unreadable / readable
content), and Python exceptions become `Except`.
-/

namespace KG

/-- The JSON `data` payload of a node, restricted to the fields the code under
verification actually reads or writes: `data.get('protocol')` in the
PAIRS_WITH pass, `$.severity` and `$.historical_losses_usd` in
`find_vulnerabilities`, and `inferred_domain` written by the domain-tagging
pass.  All other payload fields are never consulted by the embedded code. -/
structure NodeData where
  protocol : Option String
  severity : Option String
  historicalLossesUsd : Option ℚ
  inferredDomain : Option String
deriving DecidableEq

/-- A row of the `nodes` table (`knowledge_graph.py`, `_init_database`). -/
structure Node where
  id : String
  type : String
  name : String
  kbSource : String
  filePath : String
  data : NodeData
deriving DecidableEq

/-- The JSON `properties` payload of an edge, restricted to the keys written
by the loader and the enhancer passes (`auto_detected`, `mentions`,
`mechanism`, `depth_ladder`, `integration_type`, `domain`). -/
structure EdgeProps where
  autoDetected : Bool
  mentions : Option Nat
  mechanism : Option String
  depthLadder : Option String
  integrationType : Option String
  domain : Option String
deriving DecidableEq

/-- A row of the `edges` table.  The autoincrement rowid is immaterial to the
claims and is dropped; rows are kept in insertion order. -/
structure Edge where
  sourceId : String
  targetId : String
  relationshipType : String
  properties : EdgeProps
deriving DecidableEq

/-- A row of the FTS5 `search_index` virtual table. -/
structure SearchEntry where
  entityId : String
  content : String
  tags : String
deriving DecidableEq

/-- The persistent state of the knowledge graph: the three SQLite tables, in
row order. -/
structure Graph where
  nodes : List Node
  edges : List Edge
  searchIndex : List SearchEntry
deriving DecidableEq

/-! ## String primitives

Kernel-computable models of the Python string operations used by the code:
`needle in hay` (substring test), `str.lower`, `str.replace(' ', '_')`, and
`re.findall(r'\w+', s)`. -/

/-- `listPrefix n h` is true iff `n` is a prefix of `h`. -/
def listPrefix : List Char → List Char → Bool
  | [], _ => true
  | _ :: _, [] => false
  | a :: l₁, b :: l₂ => a == b && listPrefix l₁ l₂

/-- `listInfix n h` is true iff `n` occurs contiguously inside `h`. -/
def listInfix : List Char → List Char → Bool
  | n, [] => n.isEmpty
  | n, h :: t => listPrefix n (h :: t) || listInfix n t

/-- Python's `needle in hay` substring operator (true for the empty needle). -/
def containsStr (hay needle : String) : Bool :=
  listInfix needle.toList hay.toList

/-- Python's `str.lower()` (ASCII, which covers every string the code
manipulates), computed characterwise so the kernel can evaluate it. -/
def pyLower (s : String) : String :=
  (s.toList.map Char.toLower).asString

/-- Python's `name.lower().replace(' ', '_')` on a single-character pattern:
characterwise replacement of spaces by underscores after lowercasing. -/
def lowerUnderscore (s : String) : String :=
  ((pyLower s).toList.map fun c => if c == ' ' then '_' else c).asString

/-- A word character in the sense of Python's regex `\w` (restricted to the
ASCII range, which covers every string the code manipulates). -/
def isWordChar (c : Char) : Bool := c.isAlphanum || c == '_'

/-- Helper for `words`: accumulates the current in-progress word (reversed). -/
def wordsAux : List Char → List Char → List (List Char)
  | [], [] => []
  | [], acc => [acc.reverse]
  | c :: cs, acc =>
    if isWordChar c then wordsAux cs (c :: acc)
    else if acc.isEmpty then wordsAux cs []
    else acc.reverse :: wordsAux cs []

/-- Python's `re.findall(r'\w+', s)`: the maximal runs of word characters. -/
def words (s : String) : List String :=
  (wordsAux s.toList []).map List.asString

/-- The set of words of a lowercased name, as used by
`AutoEnhancer._name_similarity` (`set(re.findall(r'\w+', name.lower()))`). -/
def wordSet (s : String) : Finset String :=
  (words (pyLower s)).toFinset

/-- `AutoEnhancer._name_similarity` (auto_enhance.py:326-337): Jaccard
similarity of the word sets of the two lowercased names, with an early
`0.0` return when either word set is empty.  The Python float division
`len(intersection) / len(union)` is modelled exactly in `ℚ`; at the word-set
sizes that occur, float rounding cannot move a quotient across the fixed
`0.5` threshold it is compared against. -/
def name_similarity (name1 name2 : String) : ℚ :=
  let w1 := wordSet name1
  let w2 := wordSet name2
  if w1 = ∅ ∨ w2 = ∅ then 0
  else mkRat ((w1 ∩ w2).card : Int) ((w1 ∪ w2).card)

/-! ## Store primitives (`knowledge_graph.py`) -/

/-- Rendering of `json.dumps(data)` restricted to the modelled payload
fields; only its tokens matter, and only to the full-text index. -/
def dataDump (d : NodeData) : String :=
  (d.protocol.getD "") ++ " " ++ (d.severity.getD "") ++ " " ++
  (d.inferredDomain.getD "")

/-- The searchable text blob `f"{name} {file_path} {json.dumps(data)}"`
stored by `_add_node`. -/
def mkContent (n : Node) : String :=
  n.name ++ " " ++ n.filePath ++ " " ++ dataDump n.data

/-- `KnowledgeGraph._add_node` (knowledge_graph.py:165-179):
`INSERT OR REPLACE` into `nodes` (the conflicting row, if any, is deleted and
the new row appended), followed by a plain `INSERT` into `search_index`.
No validation of `node_type` is performed. -/
def add_node (g : Graph) (n : Node) : Graph :=
  { nodes := g.nodes.filter (fun m => m.id != n.id) ++ [n]
    edges := g.edges
    searchIndex := g.searchIndex ++ [⟨n.id, mkContent n, n.type ++ " " ++ n.kbSource⟩] }

/-- `KnowledgeGraph._add_edge` (knowledge_graph.py:181-187): an unconditional
`INSERT` into `edges`.  SQLite does not enforce the declared FOREIGN KEY
constraints (no `PRAGMA foreign_keys=ON` is issued), so no endpoint check
happens here. -/
def add_edge (g : Graph) (s t r : String) (p : EdgeProps) : Graph :=
  { g with edges := g.edges ++ [⟨s, t, r, p⟩] }

/-- `KnowledgeGraph.find_by_type` (knowledge_graph.py:204-210):
`SELECT * FROM nodes WHERE type = ?`. -/
def find_by_type (g : Graph) (ty : String) : List Node :=
  g.nodes.filter fun n => n.type == ty

/-- `SELECT COUNT(*) FROM nodes WHERE id = ?` is nonzero. -/
def nodeExists (g : Graph) (nid : String) : Bool :=
  g.nodes.any fun n => n.id == nid

/-- `SELECT COUNT(*) FROM edges WHERE source_id = ? AND target_id = ? AND
relationship_type = ?` is nonzero. -/
def edgeExists (g : Graph) (s t r : String) : Bool :=
  g.edges.any fun e => e.sourceId == s && e.targetId == t && e.relationshipType == r

/-- The number of stored edges with the given (source, target, type) triple. -/
def countTriple (g : Graph) (s t r : String) : Nat :=
  g.edges.countP fun e => e.sourceId == s && e.targetId == t && e.relationshipType == r

/-- Single-term FTS5 `MATCH` semantics (external SQLite library, modelled):
a bare query term matches a `search_index` row iff it occurs as a token of
the row's `content` or `tags` column (the default unicode61 tokenizer
lowercases and splits at non-word characters). -/
def ftsMatch (q : String) (e : SearchEntry) : Bool :=
  (words (pyLower e.content)).contains (pyLower q) ||
  (words (pyLower e.tags)).contains (pyLower q)

/-- First node with the given id (the `JOIN nodes n ON s.entity_id = n.id`). -/
def lookupNode (g : Graph) (nid : String) : Option Node :=
  g.nodes.find? fun n => n.id == nid

/-- `KnowledgeGraph.search` (knowledge_graph.py:191-202): one result row per
matching `search_index` row, joined to `nodes` on `entity_id = id`, limited
to `limit` rows.  The bm25 `ORDER BY rank` is abstracted to index order; the
claims about `search` concern only the multiset of returned rows, which is
independent of the ordering. -/
def search (g : Graph) (q : String) (limit : Nat) : List Node :=
  (((g.searchIndex.filter (ftsMatch q)).filterMap fun e => lookupNode g e.entityId).take limit)

/-- `KnowledgeGraph.find_vulnerabilities` (knowledge_graph.py:212-227).
The severity and loss filters are appended to the SQL only when the Python
argument is *truthy* (`if severity:` / `if min_loss:`), so `None`, `""`, `0`
and `0.0` all leave the corresponding filter off.  When applied, the SQL
predicates evaluate to NULL (hence false) on rows whose payload lacks the
field. -/
def find_vulnerabilities (g : Graph) (severity : Option String) (min_loss : Option ℚ) :
    List Node :=
  let base := g.nodes.filter fun n => n.type == "Vulnerability"
  let afterSev :=
    match severity with
    | none => base
    | some sev =>
      if sev == "" then base
      else base.filter fun n => n.data.severity == some sev
  match min_loss with
  | none => afterSev
  | some x =>
    if x == 0 then afterSev
    else afterSev.filter fun n =>
      match n.data.historicalLossesUsd with
      | none => false
      | some v => decide (x ≤ v)

/-! ## Filesystem model

The keyword-scan passes read each node's backing document with
`Path(...).exists()` followed by `Path(...).read_text()`.  A path can be
missing (`exists()` is false), existing but unreadable (`read_text()`
raises), or readable with some content. -/

/-- The state of one path of the filesystem. -/
inductive FileState where
  | missing
  | unreadable
  | readable (content : String)
deriving DecidableEq

/-- The filesystem as seen by the enhancer: a map from path to file state. -/
def FileSys := String → FileState

/-- `Path(p).exists()`. -/
def fexists (fs : FileSys) (p : String) : Bool :=
  match fs p with
  | .missing => false
  | _ => true

/-- `Path(p).read_text()`: returns the content, or raises (modelled as
`Except.error`) when the existing file cannot be read. -/
def fread (fs : FileSys) (p : String) : Except Unit String :=
  match fs p with
  | .readable c => .ok c
  | _ => .error ()

/-! ## Enhancer state and idempotent edge insertion (`auto_enhance.py`) -/

/-- The mutable state of an `AutoEnhancer` run: the graph plus the
`edges_added` / `edges_by_type` counters of `self.stats` (the counters start
at zero and empty for each run). -/
structure EnhState where
  graph : Graph
  edgesAdded : Nat
  edgesByType : List (String × Nat)
deriving DecidableEq

/-- `self.stats['edges_by_type'][rel] = self.stats['edges_by_type'].get(rel, 0) + 1`
on the insertion-ordered dict. -/
def bumpType : List (String × Nat) → String → List (String × Nat)
  | [], r => [(r, 1)]
  | (k, v) :: rest, r =>
    if k == r then (k, v + 1) :: rest else (k, v) :: bumpType rest r

/-- `self.stats['edges_by_type'].get(rel, 0)`. -/
def typeCount (l : List (String × Nat)) (r : String) : Nat :=
  (l.lookup r).getD 0

/-- `AutoEnhancer._add_edge_safe` (auto_enhance.py:121-145): returns `false`
without touching storage when either endpoint's node-count query is zero or
when an edge with the same (source, target, relationship_type) triple already
exists; otherwise inserts via `KnowledgeGraph._add_edge`, bumps the two
counters and returns `true`. -/
def add_edge_safe (st : EnhState) (s t r : String) (p : EdgeProps) :
    Bool × EnhState :=
  if nodeExists st.graph s = false then (false, st)
  else if nodeExists st.graph t = false then (false, st)
  else if edgeExists st.graph s t r then (false, st)
  else (true, ⟨add_edge st.graph s t r p, st.edgesAdded + 1, bumpType st.edgesByType r⟩)

/-- `ComprehensiveKnowledgeGraphEnhancer._add_edge_safe`
(enhance_knowledge_graph.py:94-107): identical to the auto-enhancer's
version except that it performs no endpoint-existence check. -/
def add_edge_safe_comprehensive (st : EnhState) (s t r : String) (p : EdgeProps) :
    Bool × EnhState :=
  if edgeExists st.graph s t r then (false, st)
  else (true, ⟨add_edge st.graph s t r p, st.edgesAdded + 1, bumpType st.edgesByType r⟩)

/-! ## The seven inference passes (`AutoEnhancer.enhance`)

Each pass is a nested loop over node lists fetched once at pass start; the
loop body evaluates a condition that depends only on the node snapshot (and
the filesystem) and, when it holds, calls `_add_edge_safe`.  Each pass is
embedded as the list of insertion attempts the loops generate, in loop
order (`…Attempts`), executed left-to-right by `runAtts`. -/

/-- One call of `_add_edge_safe`, with its arguments. -/
structure Attempt where
  src : String
  tgt : String
  rel : String
  props : EdgeProps
deriving DecidableEq

/-- The edge row an attempt would insert. -/
def mkEdge (a : Attempt) : Edge := ⟨a.src, a.tgt, a.rel, a.props⟩

/-- Execute one insertion attempt (dropping the returned Bool). -/
def runAtt (st : EnhState) (a : Attempt) : EnhState :=
  (add_edge_safe st a.src a.tgt a.rel a.props).2

/-- Execute a list of insertion attempts left to right. -/
def runAtts (st : EnhState) (l : List Attempt) : EnhState :=
  l.foldl runAtt st

/-- `EdgeProps` with only `auto_detected` set (Demonstrates pass). -/
def autoProps : EdgeProps := ⟨true, none, none, none, none, none⟩

/-- Strategy 1, `AutoEnhancer._auto_detect_demonstrates`
(auto_enhance.py:147-165): for every (VulnerableContract, Vulnerability)
pair, attempt a DEMONSTRATES edge when the vulnerability's lowercased,
underscored name occurs in the contract's lowercased name or file path. -/
def demonstratesAttempts (g : Graph) : List Attempt :=
  (find_by_type g "VulnerableContract").flatMap fun vc =>
    let vcName := pyLower vc.name
    let vcPath := pyLower vc.filePath
    (find_by_type g "Vulnerability").flatMap fun vuln =>
      let vn := lowerUnderscore vuln.name
      if containsStr vcName vn || containsStr vcPath vn then
        [⟨vc.id, vuln.id, "DEMONSTRATES", autoProps⟩]
      else []

/-- `EdgeProps` of the PAIRS_WITH pass. -/
def pairsProps : EdgeProps := ⟨true, none, none, some "theory_to_practice", none, none⟩

/-- Strategy 2, `AutoEnhancer._auto_detect_pairs` (auto_enhance.py:167-189):
for every (DeepDive, Integration) pair, attempt a PAIRS_WITH edge when the
(truthy) protocols contain one another or the name similarity exceeds 0.5.
Python's truthiness of `dd_protocol` is the non-emptiness test. -/
def pairsAttempts (g : Graph) : List Attempt :=
  (find_by_type g "DeepDive").flatMap fun dd =>
    let ddProtocol := pyLower (dd.data.protocol.getD "")
    let ddName := pyLower dd.name
    (find_by_type g "Integration").flatMap fun integ =>
      let integProtocol := pyLower (integ.data.protocol.getD "")
      let integName := pyLower integ.name
      if (ddProtocol != "" && containsStr integProtocol ddProtocol) ||
         (ddProtocol != "" && containsStr ddProtocol integProtocol) ||
         decide (name_similarity ddName integName > mkRat 1 2) then
        [⟨dd.id, integ.id, "PAIRS_WITH", pairsProps⟩]
      else []

/-- `self.vulnerability_keywords` (auto_enhance.py:38-49), in insertion
order. -/
def vulnerability_keywords : List (String × List String) :=
  [("reentrancy", ["reentrancy", "reentrant", "call.value", "external call"]),
   ("access_control", ["access control", "ownable", "onlyowner", "permission", "authorization"]),
   ("integer_overflow", ["overflow", "underflow", "safemath", "arithmetic"]),
   ("frontrunning", ["frontrun", "mev", "sandwich", "mempool"]),
   ("flash_loan", ["flash loan", "flash attack", "price manipulation"]),
   ("dos", ["dos", "denial of service", "gas limit", "block gas"]),
   ("delegatecall", ["delegatecall", "proxy", "upgradeable"]),
   ("timestamp", ["timestamp", "block.timestamp", "now"]),
   ("tx_origin", ["tx.origin", "transaction origin"]),
   ("unchecked", ["unchecked", "return value", "call return"])]

/-- `self.prevention_patterns` (auto_enhance.py:51-59), in insertion order. -/
def prevention_patterns : List (String × String) :=
  [("ReentrancyGuard", "reentrancy"), ("nonReentrant", "reentrancy"),
   ("Ownable", "access_control"), ("AccessControl", "access_control"),
   ("SafeMath", "integer_overflow"), ("Pausable", "dos"),
   ("SafeERC20", "unchecked")]

/-- `self.vulnerability_keywords.get(vuln_name.replace(' ', '_'), [vuln_name])`
where `vuln_name = vuln['name'].lower()`. -/
def keywordsFor (rawName : String) : List String :=
  match vulnerability_keywords.lookup (lowerUnderscore rawName) with
  | some ks => ks
  | none => [pyLower rawName]

/-- Inner loops of Strategy 3 for one template with already-lowercased file
`content`: for every vulnerability and every prevention pattern, attempt a
PREVENTS edge when the lowercased pattern occurs in the content and the
pattern's vulnerability category occurs in the vulnerability's lowercased,
underscored name. -/
def preventsContrib (tpl : Node) (content : String) (vulns : List Node) :
    List Attempt :=
  vulns.flatMap fun vuln =>
    let vn := lowerUnderscore vuln.name
    prevention_patterns.flatMap fun pp =>
      if containsStr content (pyLower pp.1) && containsStr vn pp.2 then
        [⟨tpl.id, vuln.id, "PREVENTS", ⟨true, none, some pp.1, none, none, none⟩⟩]
      else []

/-- Outer loop of Strategy 3, `AutoEnhancer._auto_detect_prevents`
(auto_enhance.py:191-213): templates whose path does not exist are skipped;
a `read_text` failure propagates as an exception. -/
def preventsAttemptsAux (fs : FileSys) (vulns : List Node) :
    List Node → Except Unit (List Attempt)
  | [] => .ok []
  | tpl :: rest =>
    if fexists fs tpl.filePath then
      match fread fs tpl.filePath with
      | .error e => .error e
      | .ok raw =>
        match preventsAttemptsAux fs vulns rest with
        | .error e => .error e
        | .ok l => .ok (preventsContrib tpl (pyLower raw) vulns ++ l)
    else preventsAttemptsAux fs vulns rest

/-- The insertion attempts generated by Strategy 3 on a graph snapshot. -/
def preventsAttempts (g : Graph) (fs : FileSys) : Except Unit (List Attempt) :=
  preventsAttemptsAux fs (find_by_type g "Vulnerability") (find_by_type g "Template")

/-- The number of the vulnerability's associated keywords that occur in the
(already lowercased) document content:
`sum(1 for keyword in vuln_keywords if keyword in content)`
(auto_enhance.py:232). -/
def mentionsCount (vulnRawName content : String) : Nat :=
  (keywordsFor vulnRawName).countP fun kw => containsStr content kw

/-- `EdgeProps` of an EXPLAINS edge: the keyword count is stored under
`mentions`. -/
def explainsProps (m : Nat) : EdgeProps := ⟨true, some m, none, none, none, none⟩

/-- Inner loop of Strategy 4 for one deep dive with already-lowercased file
`content`: attempt an EXPLAINS edge to every vulnerability mentioned at
least twice (`if mentions >= 2`). -/
def explainsContrib (dd : Node) (content : String) (vulns : List Node) :
    List Attempt :=
  vulns.flatMap fun vuln =>
    let m := mentionsCount vuln.name content
    if 2 ≤ m then [⟨dd.id, vuln.id, "EXPLAINS", explainsProps m⟩] else []

/-- Outer loop of Strategy 4, `AutoEnhancer._auto_detect_explains`
(auto_enhance.py:215-236). -/
def explainsAttemptsAux (fs : FileSys) (vulns : List Node) :
    List Node → Except Unit (List Attempt)
  | [] => .ok []
  | dd :: rest =>
    if fexists fs dd.filePath then
      match fread fs dd.filePath with
      | .error e => .error e
      | .ok raw =>
        match explainsAttemptsAux fs vulns rest with
        | .error e => .error e
        | .ok l => .ok (explainsContrib dd (pyLower raw) vulns ++ l)
    else explainsAttemptsAux fs vulns rest

/-- The insertion attempts generated by Strategy 4 on a graph snapshot. -/
def explainsAttempts (g : Graph) (fs : FileSys) : Except Unit (List Attempt) :=
  explainsAttemptsAux fs (find_by_type g "Vulnerability") (find_by_type g "DeepDive")

/-- `EdgeProps` of a USES edge with the given `integration_type`. -/
def usesProps (ity : String) : EdgeProps := ⟨true, none, none, none, some ity, none⟩

/-- Inner loop of Strategy 5 for one integration with already-lowercased
`content`: the `if/elif` chain over the template's lowercased name with
`.sol` removed (`template['name'].lower().replace('.sol', '')`). -/
def usesContrib (integ : Node) (content : String) (tpls : List Node) :
    List Attempt :=
  tpls.flatMap fun tpl =>
    let tn := (pyLower tpl.name).replace ".sol" ""
    if containsStr tn "erc20" && containsStr content "erc20" then
      [⟨integ.id, tpl.id, "USES", usesProps "token"⟩]
    else if containsStr tn "erc721" && (containsStr content "erc721" || containsStr content "nft") then
      [⟨integ.id, tpl.id, "USES", usesProps "nft"⟩]
    else if containsStr tn "upgradeable" && (containsStr content "proxy" || containsStr content "upgradeable") then
      [⟨integ.id, tpl.id, "USES", usesProps "upgradeable"⟩]
    else []

/-- Outer loop of Strategy 5, `AutoEnhancer._auto_detect_uses`
(auto_enhance.py:238-265). -/
def usesAttemptsAux (fs : FileSys) (tpls : List Node) :
    List Node → Except Unit (List Attempt)
  | [] => .ok []
  | integ :: rest =>
    if fexists fs integ.filePath then
      match fread fs integ.filePath with
      | .error e => .error e
      | .ok raw =>
        match usesAttemptsAux fs tpls rest with
        | .error e => .error e
        | .ok l => .ok (usesContrib integ (pyLower raw) tpls ++ l)
    else usesAttemptsAux fs tpls rest

/-- The insertion attempts generated by Strategy 5 on a graph snapshot. -/
def usesAttempts (g : Graph) (fs : FileSys) : Except Unit (List Attempt) :=
  usesAttemptsAux fs (find_by_type g "Template") (find_by_type g "Integration")

/-- `EdgeProps` of a RELATES_TO edge with the given `domain`. -/
def relatesProps (dom : String) : EdgeProps := ⟨true, none, none, none, none, some dom⟩

/-- Strategy 6, `AutoEnhancer._auto_detect_relates` (auto_enhance.py:267-296):
the `if/elif` chain of fixed cross-domain name-keyword associations between
DeepDives and Templates. -/
def relatesAttempts (g : Graph) : List Attempt :=
  (find_by_type g "DeepDive").flatMap fun dd =>
    let ddName := pyLower dd.name
    (find_by_type g "Template").flatMap fun tpl =>
      let tplName := pyLower tpl.name
      if (containsStr ddName "nft" || containsStr ddName "seaport") &&
         containsStr tplName "erc721" then
        [⟨dd.id, tpl.id, "RELATES_TO", relatesProps "NFT"⟩]
      else if (containsStr ddName "defi" || containsStr ddName "uniswap" ||
               containsStr ddName "curve") && containsStr tplName "erc20" then
        [⟨dd.id, tpl.id, "RELATES_TO", relatesProps "DeFi"⟩]
      else if (containsStr ddName "staking" || containsStr ddName "yield" ||
               containsStr ddName "yearn") && containsStr tplName "staking" then
        [⟨dd.id, tpl.id, "RELATES_TO", relatesProps "Staking"⟩]
      else []

/-- The `domain_keywords` table of Strategy 7 (auto_enhance.py:302-308), in
insertion order. -/
def domain_keywords : List (String × List String) :=
  [("DeFi", ["defi", "swap", "amm", "dex", "liquidity", "yield", "lending"]),
   ("NFT", ["nft", "erc721", "erc1155", "marketplace", "collectible"]),
   ("Gaming", ["game", "gaming", "vrf", "random", "achievement"]),
   ("AI", ["ai", "oracle", "chainlink functions", "automation"]),
   ("Governance", ["governance", "dao", "vote", "proposal", "multisig"])]

/-- `any(kw in node_name or kw in node_path for kw in keywords)` on the
lowercased name and file path of the fetched row. -/
def domainMatches (n : Node) (kws : List String) : Bool :=
  kws.any fun kw => containsStr (pyLower n.name) kw || containsStr (pyLower n.filePath) kw

/-- One iteration of the `for domain, keywords in domain_keywords.items()`
loop of Strategy 7: every matching domain overwrites `inferred_domain` in the
node's payload (the loop has no `break`). -/
def tagStep (n acc : Node) (p : String × List String) : Node :=
  if domainMatches n p.2 then
    { acc with data := { acc.data with inferredDomain := some p.1 } }
  else acc

/-- The net effect of Strategy 7 on one fetched node row. -/
def tagNode (n : Node) : Node :=
  domain_keywords.foldl (tagStep n) n

/-- Strategy 7, `AutoEnhancer._auto_detect_domains` (auto_enhance.py:298-324):
fetches every node row once and, per matching domain, rewrites the row's
`data` in place (`UPDATE nodes SET data = ? WHERE id = ?`); edges, the
search index and the stats counters are untouched. -/
def domainsPass (st : EnhState) : EnhState :=
  { st with graph := { st.graph with nodes := st.graph.nodes.map tagNode } }

/-- `AutoEnhancer.enhance` (auto_enhance.py:61-119): the seven strategies in
order, on a fresh stats state; an exception raised by a file read inside a
strategy propagates out of `enhance`. -/
def enhance (fs : FileSys) (g : Graph) : Except Unit EnhState :=
  let st1 := runAtts ⟨g, 0, []⟩ (demonstratesAttempts g)
  let st2 := runAtts st1 (pairsAttempts st1.graph)
  match preventsAttempts st2.graph fs with
  | .error e => .error e
  | .ok l3 =>
    let st3 := runAtts st2 l3
    match explainsAttempts st3.graph fs with
    | .error e => .error e
    | .ok l4 =>
      let st4 := runAtts st3 l4
      match usesAttempts st4.graph fs with
      | .error e => .error e
      | .ok l5 =>
        let st5 := runAtts st4 l5
        let st6 := runAtts st5 (relatesAttempts st5.graph)
        .ok (domainsPass st6)

/-- The contribution of one outer-loop node of a scanning pass, as a function
of its file state: skipped when missing, inner-loop attempts when readable. -/
def scanContrib (contrib : Node → String → List Attempt) (fs : FileSys)
    (n : Node) : List Attempt :=
  match fs n.filePath with
  | .readable c => contrib n (pyLower c)
  | _ => []

/-! ## Concrete fixtures used by witnesses and counterexamples -/

/-- An empty node payload. -/
def noData : NodeData := ⟨none, none, none, none⟩

/-- A concrete Vulnerability node. -/
def wVuln : Node := ⟨"v1", "Vulnerability", "Reentrancy", "action", "q1", noData⟩

/-- A concrete Template node. -/
def wTpl : Node := ⟨"b", "Template", "Guard.sol", "action", "pb", noData⟩

/-- A concrete DeepDive node backed by file `"p1"`. -/
def wDD : Node := ⟨"dd1", "DeepDive", "Dive", "research", "p1", noData⟩

/-- An enhancer state over a two-node graph with no edges. -/
def wState : EnhState := ⟨⟨[wVuln, wTpl], [], []⟩, 0, []⟩

/-- A filesystem where only `"p1"` exists, readable with a fixed text. -/
def wFs : FileSys := fun p =>
  if p = "p1" then FileState.readable "Reentrancy attack is reentrant"
  else FileState.missing

/-- An enhancer state holding one DeepDive and one Vulnerability. -/
def wSt : EnhState := ⟨⟨[wDD, wVuln], [], []⟩, 0, []⟩

/-- The single EXPLAINS attempt the Explains pass generates on `wSt`/`wFs`. -/
def wL : List Attempt := [⟨"dd1", "v1", "EXPLAINS", explainsProps 2⟩]

/-! ## Basic lemmas about the store primitives -/

theorem edgeExists_iff (g : Graph) (s t r : String) :
    edgeExists g s t r = true ↔ ∃ p, (⟨s, t, r, p⟩ : Edge) ∈ g.edges := by
  simp only [edgeExists, List.any_eq_true, Bool.and_eq_true, beq_iff_eq]
  constructor
  · rintro ⟨e, he, ⟨h1, h2⟩, h3⟩
    subst h1; subst h2; subst h3
    exact ⟨e.properties, he⟩
  · rintro ⟨p, hp⟩
    exact ⟨⟨s, t, r, p⟩, hp, ⟨rfl, rfl⟩, rfl⟩

theorem edgeExists_false_notMem (g : Graph) (s t r : String)
    (h : edgeExists g s t r = false) (p : EdgeProps) :
    (⟨s, t, r, p⟩ : Edge) ∉ g.edges := by
  intro hmem
  have : edgeExists g s t r = true := (edgeExists_iff g s t r).2 ⟨p, hmem⟩
  rw [h] at this
  exact Bool.noConfusion this

theorem nodeExists_of_mem {g : Graph} {n : Node} (h : n ∈ g.nodes) :
    nodeExists g n.id = true := by
  simp only [nodeExists, List.any_eq_true, beq_iff_eq]
  exact ⟨n, h, rfl⟩

theorem edgeExists_add_edge (g : Graph) (s t r : String) (p : EdgeProps) :
    edgeExists (add_edge g s t r p) s t r = true := by
  simp [edgeExists, add_edge]

theorem edgeExists_add_edge_mono (g : Graph) (s t r s' t' r' : String)
    (p : EdgeProps) (h : edgeExists g s t r = true) :
    edgeExists (add_edge g s' t' r' p) s t r = true := by
  simp only [edgeExists, add_edge, List.any_append, Bool.or_eq_true]
  exact Or.inl h

/-! ## Generic lemmas about executing insertion attempts -/

/-- After an attempt has been processed, either one of its endpoints is
missing or an edge with its triple is stored. -/
def satA (g : Graph) (a : Attempt) : Prop :=
  nodeExists g a.src = false ∨ nodeExists g a.tgt = false ∨
  edgeExists g a.src a.tgt a.rel = true

theorem runAtt_nodes (st : EnhState) (a : Attempt) :
    (runAtt st a).graph.nodes = st.graph.nodes := by
  unfold runAtt add_edge_safe
  split
  · rfl
  · split
    · rfl
    · split
      · rfl
      · simp [add_edge]

theorem runAtt_searchIndex (st : EnhState) (a : Attempt) :
    (runAtt st a).graph.searchIndex = st.graph.searchIndex := by
  unfold runAtt add_edge_safe
  split
  · rfl
  · split
    · rfl
    · split
      · rfl
      · simp [add_edge]

theorem nodeExists_runAtt (st : EnhState) (a : Attempt) (x : String) :
    nodeExists (runAtt st a).graph x = nodeExists st.graph x := by
  unfold nodeExists
  rw [runAtt_nodes]

theorem edgeExists_runAtt_mono (st : EnhState) (a : Attempt) (s t r : String)
    (h : edgeExists st.graph s t r = true) :
    edgeExists (runAtt st a).graph s t r = true := by
  unfold runAtt add_edge_safe
  split
  · exact h
  · split
    · exact h
    · split
      · exact h
      · exact edgeExists_add_edge_mono _ _ _ _ _ _ _ _ h

theorem runAtt_satA_self (st : EnhState) (a : Attempt) :
    satA (runAtt st a).graph a := by
  unfold satA runAtt add_edge_safe
  split
  · rename_i h
    exact Or.inl h
  · split
    · rename_i h
      exact Or.inr (Or.inl h)
    · split
      · rename_i h
        exact Or.inr (Or.inr h)
      · exact Or.inr (Or.inr (edgeExists_add_edge _ _ _ _ _))

theorem satA_runAtt_mono (st : EnhState) (a b : Attempt) (h : satA st.graph b) :
    satA (runAtt st a).graph b := by
  unfold satA at h ⊢
  rw [nodeExists_runAtt, nodeExists_runAtt]
  rcases h with h | h | h
  · exact Or.inl h
  · exact Or.inr (Or.inl h)
  · exact Or.inr (Or.inr (edgeExists_runAtt_mono _ _ _ _ _ h))

theorem runAtt_noop (st : EnhState) (a : Attempt) (h : satA st.graph a) :
    runAtt st a = st := by
  unfold runAtt add_edge_safe
  split
  · rfl
  · split
    · rfl
    · split
      · rfl
      · exfalso
        rename_i h1 h2 h3
        rcases h with h | h | h
        · exact h1 h
        · exact h2 h
        · exact h3 h

theorem runAtt_edges_sub (st : EnhState) (a : Attempt) :
    ∀ e ∈ (runAtt st a).graph.edges, e ∈ st.graph.edges ∨ e = mkEdge a := by
  intro e he
  unfold runAtt add_edge_safe at he
  split at he
  · exact Or.inl he
  · split at he
    · exact Or.inl he
    · split at he
      · exact Or.inl he
      · simp only [add_edge, List.mem_append, List.mem_singleton] at he
        exact he.imp id (fun h => h)

theorem runAtts_nodes (l : List Attempt) (st : EnhState) :
    (runAtts st l).graph.nodes = st.graph.nodes := by
  induction l generalizing st with
  | nil => rfl
  | cons a rest ih =>
    rw [runAtts, List.foldl_cons]
    rw [show List.foldl runAtt (runAtt st a) rest = runAtts (runAtt st a) rest from rfl]
    rw [ih, runAtt_nodes]

theorem runAtts_searchIndex (l : List Attempt) (st : EnhState) :
    (runAtts st l).graph.searchIndex = st.graph.searchIndex := by
  induction l generalizing st with
  | nil => rfl
  | cons a rest ih =>
    rw [runAtts, List.foldl_cons]
    rw [show List.foldl runAtt (runAtt st a) rest = runAtts (runAtt st a) rest from rfl]
    rw [ih, runAtt_searchIndex]

theorem nodeExists_runAtts (l : List Attempt) (st : EnhState) (x : String) :
    nodeExists (runAtts st l).graph x = nodeExists st.graph x := by
  unfold nodeExists
  rw [runAtts_nodes]

theorem edgeExists_runAtts_mono (l : List Attempt) (st : EnhState)
    (s t r : String) (h : edgeExists st.graph s t r = true) :
    edgeExists (runAtts st l).graph s t r = true := by
  induction l generalizing st with
  | nil => exact h
  | cons a rest ih =>
    rw [runAtts, List.foldl_cons]
    exact ih (runAtt st a) (edgeExists_runAtt_mono _ _ _ _ _ h)

theorem satA_runAtts_mono (l : List Attempt) (st : EnhState) (b : Attempt)
    (h : satA st.graph b) : satA (runAtts st l).graph b := by
  induction l generalizing st with
  | nil => exact h
  | cons a rest ih =>
    rw [runAtts, List.foldl_cons]
    exact ih (runAtt st a) (satA_runAtt_mono _ _ _ h)

theorem runAtts_satA_all (l : List Attempt) (st : EnhState) :
    ∀ a ∈ l, satA (runAtts st l).graph a := by
  induction l generalizing st with
  | nil => intro a ha; exact absurd ha (List.not_mem_nil a)
  | cons b rest ih =>
    intro a ha
    rw [runAtts, List.foldl_cons]
    rcases List.mem_cons.1 ha with h | h
    · subst h
      exact satA_runAtts_mono rest (runAtt st a) a (runAtt_satA_self st a)
    · exact ih (runAtt st b) a h

theorem runAtts_noop (l : List Attempt) (st : EnhState)
    (h : ∀ a ∈ l, satA st.graph a) : runAtts st l = st := by
  induction l with
  | nil => rfl
  | cons a rest ih =>
    rw [runAtts, List.foldl_cons, runAtt_noop st a (h a (List.mem_cons_self a rest))]
    exact ih fun b hb => h b (List.mem_cons_of_mem a hb)

theorem runAtts_edges_sub (l : List Attempt) (st : EnhState) :
    ∀ e ∈ (runAtts st l).graph.edges,
      e ∈ st.graph.edges ∨ ∃ a ∈ l, e = mkEdge a := by
  induction l generalizing st with
  | nil => intro e he; exact Or.inl he
  | cons a rest ih =>
    intro e he
    rw [runAtts, List.foldl_cons] at he
    rcases ih (runAtt st a) e he with h | ⟨b, hb, he'⟩
    · rcases runAtt_edges_sub st a e h with h' | h'
      · exact Or.inl h'
      · exact Or.inr ⟨a, List.mem_cons_self a rest, h'⟩
    · exact Or.inr ⟨b, List.mem_cons_of_mem a hb, he'⟩

theorem runAtts_complete (l : List Attempt) (st : EnhState) (a : Attempt)
    (ha : a ∈ l) (hs : nodeExists st.graph a.src = true)
    (ht : nodeExists st.graph a.tgt = true) :
    edgeExists (runAtts st l).graph a.src a.tgt a.rel = true := by
  induction l generalizing st with
  | nil => exact absurd ha (List.not_mem_nil a)
  | cons b rest ih =>
    rw [runAtts, List.foldl_cons]
    rcases List.mem_cons.1 ha with h | h
    · subst h
      have hsat := runAtt_satA_self st a
      unfold satA at hsat
      rcases hsat with h' | h' | h'
      · rw [nodeExists_runAtt, hs] at h'
        exact Bool.noConfusion h'
      · rw [nodeExists_runAtt, ht] at h'
        exact Bool.noConfusion h'
      · exact edgeExists_runAtts_mono rest (runAtt st a) _ _ _ h'
    · exact ih (runAtt st b) h (by rwa [nodeExists_runAtt])
        (by rwa [nodeExists_runAtt])

/-! ## Lemmas about the domain-tagging pass -/

theorem tagStep_id (n acc : Node) (p : String × List String) :
    (tagStep n acc p).id = acc.id := by
  unfold tagStep; split <;> rfl

theorem tagStep_type (n acc : Node) (p : String × List String) :
    (tagStep n acc p).type = acc.type := by
  unfold tagStep; split <;> rfl

theorem tagStep_name (n acc : Node) (p : String × List String) :
    (tagStep n acc p).name = acc.name := by
  unfold tagStep; split <;> rfl

theorem tagStep_filePath (n acc : Node) (p : String × List String) :
    (tagStep n acc p).filePath = acc.filePath := by
  unfold tagStep; split <;> rfl

theorem tagStep_protocol (n acc : Node) (p : String × List String) :
    (tagStep n acc p).data.protocol = acc.data.protocol := by
  unfold tagStep; split <;> rfl

theorem tagFold_id (tbl : List (String × List String)) (n acc : Node) :
    (tbl.foldl (tagStep n) acc).id = acc.id := by
  induction tbl generalizing acc with
  | nil => rfl
  | cons p rest ih => rw [List.foldl_cons, ih, tagStep_id]

theorem tagFold_type (tbl : List (String × List String)) (n acc : Node) :
    (tbl.foldl (tagStep n) acc).type = acc.type := by
  induction tbl generalizing acc with
  | nil => rfl
  | cons p rest ih => rw [List.foldl_cons, ih, tagStep_type]

theorem tagFold_name (tbl : List (String × List String)) (n acc : Node) :
    (tbl.foldl (tagStep n) acc).name = acc.name := by
  induction tbl generalizing acc with
  | nil => rfl
  | cons p rest ih => rw [List.foldl_cons, ih, tagStep_name]

theorem tagFold_filePath (tbl : List (String × List String)) (n acc : Node) :
    (tbl.foldl (tagStep n) acc).filePath = acc.filePath := by
  induction tbl generalizing acc with
  | nil => rfl
  | cons p rest ih => rw [List.foldl_cons, ih, tagStep_filePath]

theorem tagFold_protocol (tbl : List (String × List String)) (n acc : Node) :
    (tbl.foldl (tagStep n) acc).data.protocol = acc.data.protocol := by
  induction tbl generalizing acc with
  | nil => rfl
  | cons p rest ih => rw [List.foldl_cons, ih, tagStep_protocol]

theorem tagNode_id (n : Node) : (tagNode n).id = n.id := tagFold_id _ n n

theorem tagNode_type (n : Node) : (tagNode n).type = n.type := tagFold_type _ n n

theorem tagNode_name (n : Node) : (tagNode n).name = n.name := tagFold_name _ n n

theorem tagNode_filePath (n : Node) : (tagNode n).filePath = n.filePath :=
  tagFold_filePath _ n n

theorem tagNode_protocol (n : Node) : (tagNode n).data.protocol = n.data.protocol :=
  tagFold_protocol _ n n

theorem domainsPass_edges (st : EnhState) :
    (domainsPass st).graph.edges = st.graph.edges := rfl

theorem domainsPass_stats (st : EnhState) :
    (domainsPass st).edgesAdded = st.edgesAdded ∧
    (domainsPass st).edgesByType = st.edgesByType := ⟨rfl, rfl⟩

theorem nodeExists_map_tagNode (g : Graph) (x : String) :
    nodeExists (domainsPass ⟨g, 0, []⟩).graph x = nodeExists g x := by
  show (g.nodes.map tagNode).any (fun n => n.id == x) = g.nodes.any fun n => n.id == x
  rw [List.any_map]
  congr 1
  funext n
  show ((tagNode n).id == x) = (n.id == x)
  rw [tagNode_id]

theorem nodeExists_domainsPass (st : EnhState) (x : String) :
    nodeExists (domainsPass st).graph x = nodeExists st.graph x := by
  show (st.graph.nodes.map tagNode).any (fun n => n.id == x) =
    st.graph.nodes.any fun n => n.id == x
  rw [List.any_map]
  congr 1
  funext n
  show ((tagNode n).id == x) = (n.id == x)
  rw [tagNode_id]

theorem edgeExists_domainsPass (st : EnhState) (s t r : String) :
    edgeExists (domainsPass st).graph s t r = edgeExists st.graph s t r := rfl

theorem satA_domainsPass (st : EnhState) (a : Attempt) (h : satA st.graph a) :
    satA (domainsPass st).graph a := by
  unfold satA at h ⊢
  rw [nodeExists_domainsPass, nodeExists_domainsPass, edgeExists_domainsPass]
  exact h

/-- `find_by_type` commutes with the domain-tagging rewrite of the node
table, because tagging never changes a node's `type`. -/
theorem find_by_type_map_tagNode (g g' : Graph)
    (h : g'.nodes = g.nodes.map tagNode) (ty : String) :
    find_by_type g' ty = (find_by_type g ty).map tagNode := by
  unfold find_by_type
  rw [h, List.filter_map]
  congr 1
  apply List.filter_congr
  intro n _
  show ((tagNode n).type == ty) = (n.type == ty)
  rw [tagNode_type]

/-! ## Characterization of the file-scanning passes

Which insertion attempts a scanning pass generates, and when it raises. -/

theorem preventsAttemptsAux_ok_of (fs : FileSys) (vulns : List Node)
    (tpls : List Node)
    (h : ∀ tpl ∈ tpls, fs tpl.filePath ≠ FileState.unreadable) :
    preventsAttemptsAux fs vulns tpls =
      .ok (tpls.flatMap (scanContrib (fun n c => preventsContrib n c vulns) fs)) := by
  induction tpls with
  | nil => rfl
  | cons tpl rest ih =>
    have hr := ih fun x hx => h x (List.mem_cons_of_mem tpl hx)
    have htpl := h tpl (List.mem_cons_self tpl rest)
    rw [List.flatMap_cons]
    show (if fexists fs tpl.filePath then _ else _) = _
    cases hf : fs tpl.filePath with
    | missing =>
      rw [show fexists fs tpl.filePath = false by simp [fexists, hf], if_neg (by simp)]
      rw [hr]
      simp [scanContrib, hf]
    | unreadable => exact absurd hf htpl
    | readable c =>
      rw [show fexists fs tpl.filePath = true by simp [fexists, hf], if_pos rfl]
      rw [show fread fs tpl.filePath = .ok c by simp [fread, hf]]
      rw [hr]
      simp [scanContrib, hf]

theorem preventsAttemptsAux_error_of (fs : FileSys) (vulns : List Node)
    (tpls : List Node)
    (h : ∃ tpl ∈ tpls, fs tpl.filePath = FileState.unreadable) :
    preventsAttemptsAux fs vulns tpls = .error () := by
  induction tpls with
  | nil => obtain ⟨x, hx, _⟩ := h; exact absurd hx (List.not_mem_nil x)
  | cons tpl rest ih =>
    show (if fexists fs tpl.filePath then _ else _) = _
    obtain ⟨x, hx, hux⟩ := h
    rcases List.mem_cons.1 hx with hx | hx
    · subst hx
      rw [show fexists fs x.filePath = true by simp [fexists, hux], if_pos rfl]
      rw [show fread fs x.filePath = .error () by simp [fread, hux]]
    · have hr := ih ⟨x, hx, hux⟩
      cases hf : fs tpl.filePath with
      | missing =>
        rw [show fexists fs tpl.filePath = false by simp [fexists, hf], if_neg (by simp)]
        exact hr
      | unreadable =>
        rw [show fexists fs tpl.filePath = true by simp [fexists, hf], if_pos rfl]
        rw [show fread fs tpl.filePath = .error () by simp [fread, hf]]
      | readable c =>
        rw [show fexists fs tpl.filePath = true by simp [fexists, hf], if_pos rfl]
        rw [show fread fs tpl.filePath = .ok c by simp [fread, hf]]
        rw [hr]

theorem explainsAttemptsAux_ok_of (fs : FileSys) (vulns : List Node)
    (dds : List Node)
    (h : ∀ dd ∈ dds, fs dd.filePath ≠ FileState.unreadable) :
    explainsAttemptsAux fs vulns dds =
      .ok (dds.flatMap (scanContrib (fun n c => explainsContrib n c vulns) fs)) := by
  induction dds with
  | nil => rfl
  | cons dd rest ih =>
    have hr := ih fun x hx => h x (List.mem_cons_of_mem dd hx)
    have hdd := h dd (List.mem_cons_self dd rest)
    rw [List.flatMap_cons]
    show (if fexists fs dd.filePath then _ else _) = _
    cases hf : fs dd.filePath with
    | missing =>
      rw [show fexists fs dd.filePath = false by simp [fexists, hf], if_neg (by simp)]
      rw [hr]
      simp [scanContrib, hf]
    | unreadable => exact absurd hf hdd
    | readable c =>
      rw [show fexists fs dd.filePath = true by simp [fexists, hf], if_pos rfl]
      rw [show fread fs dd.filePath = .ok c by simp [fread, hf]]
      rw [hr]
      simp [scanContrib, hf]

theorem explainsAttemptsAux_error_of (fs : FileSys) (vulns : List Node)
    (dds : List Node)
    (h : ∃ dd ∈ dds, fs dd.filePath = FileState.unreadable) :
    explainsAttemptsAux fs vulns dds = .error () := by
  induction dds with
  | nil => obtain ⟨x, hx, _⟩ := h; exact absurd hx (List.not_mem_nil x)
  | cons dd rest ih =>
    show (if fexists fs dd.filePath then _ else _) = _
    obtain ⟨x, hx, hux⟩ := h
    rcases List.mem_cons.1 hx with hx | hx
    · subst hx
      rw [show fexists fs x.filePath = true by simp [fexists, hux], if_pos rfl]
      rw [show fread fs x.filePath = .error () by simp [fread, hux]]
    · have hr := ih ⟨x, hx, hux⟩
      cases hf : fs dd.filePath with
      | missing =>
        rw [show fexists fs dd.filePath = false by simp [fexists, hf], if_neg (by simp)]
        exact hr
      | unreadable =>
        rw [show fexists fs dd.filePath = true by simp [fexists, hf], if_pos rfl]
        rw [show fread fs dd.filePath = .error () by simp [fread, hf]]
      | readable c =>
        rw [show fexists fs dd.filePath = true by simp [fexists, hf], if_pos rfl]
        rw [show fread fs dd.filePath = .ok c by simp [fread, hf]]
        rw [hr]

theorem usesAttemptsAux_ok_of (fs : FileSys) (tpls : List Node)
    (integs : List Node)
    (h : ∀ integ ∈ integs, fs integ.filePath ≠ FileState.unreadable) :
    usesAttemptsAux fs tpls integs =
      .ok (integs.flatMap (scanContrib (fun n c => usesContrib n c tpls) fs)) := by
  induction integs with
  | nil => rfl
  | cons integ rest ih =>
    have hr := ih fun x hx => h x (List.mem_cons_of_mem integ hx)
    have hin := h integ (List.mem_cons_self integ rest)
    rw [List.flatMap_cons]
    show (if fexists fs integ.filePath then _ else _) = _
    cases hf : fs integ.filePath with
    | missing =>
      rw [show fexists fs integ.filePath = false by simp [fexists, hf], if_neg (by simp)]
      rw [hr]
      simp [scanContrib, hf]
    | unreadable => exact absurd hf hin
    | readable c =>
      rw [show fexists fs integ.filePath = true by simp [fexists, hf], if_pos rfl]
      rw [show fread fs integ.filePath = .ok c by simp [fread, hf]]
      rw [hr]
      simp [scanContrib, hf]

theorem usesAttemptsAux_error_of (fs : FileSys) (tpls : List Node)
    (integs : List Node)
    (h : ∃ integ ∈ integs, fs integ.filePath = FileState.unreadable) :
    usesAttemptsAux fs tpls integs = .error () := by
  induction integs with
  | nil => obtain ⟨x, hx, _⟩ := h; exact absurd hx (List.not_mem_nil x)
  | cons integ rest ih =>
    show (if fexists fs integ.filePath then _ else _) = _
    obtain ⟨x, hx, hux⟩ := h
    rcases List.mem_cons.1 hx with hx | hx
    · subst hx
      rw [show fexists fs x.filePath = true by simp [fexists, hux], if_pos rfl]
      rw [show fread fs x.filePath = .error () by simp [fread, hux]]
    · have hr := ih ⟨x, hx, hux⟩
      cases hf : fs integ.filePath with
      | missing =>
        rw [show fexists fs integ.filePath = false by simp [fexists, hf], if_neg (by simp)]
        exact hr
      | unreadable =>
        rw [show fexists fs integ.filePath = true by simp [fexists, hf], if_pos rfl]
        rw [show fread fs integ.filePath = .error () by simp [fread, hf]]
      | readable c =>
        rw [show fexists fs integ.filePath = true by simp [fexists, hf], if_pos rfl]
        rw [show fread fs integ.filePath = .ok c by simp [fread, hf]]
        rw [hr]

/-! ## Invariance of the passes under domain tagging

Domain tagging only rewrites `data.inferred_domain`; no pass condition reads
that field, so every pass generates the same attempts before and after
tagging.  These lemmas drive the re-run-stability theorem. -/

theorem demonstratesAttempts_tag (g g' : Graph)
    (h : g'.nodes = g.nodes.map tagNode) :
    demonstratesAttempts g' = demonstratesAttempts g := by
  unfold demonstratesAttempts
  rw [find_by_type_map_tagNode g g' h "VulnerableContract",
      find_by_type_map_tagNode g g' h "Vulnerability", List.flatMap_map]
  congr 1
  funext vc
  rw [List.flatMap_map]
  simp only [tagNode_name, tagNode_filePath, tagNode_id]

theorem pairsAttempts_tag (g g' : Graph)
    (h : g'.nodes = g.nodes.map tagNode) :
    pairsAttempts g' = pairsAttempts g := by
  unfold pairsAttempts
  rw [find_by_type_map_tagNode g g' h "DeepDive",
      find_by_type_map_tagNode g g' h "Integration", List.flatMap_map]
  congr 1
  funext dd
  rw [List.flatMap_map]
  simp only [tagNode_name, tagNode_protocol, tagNode_id]

theorem relatesAttempts_tag (g g' : Graph)
    (h : g'.nodes = g.nodes.map tagNode) :
    relatesAttempts g' = relatesAttempts g := by
  unfold relatesAttempts
  rw [find_by_type_map_tagNode g g' h "DeepDive",
      find_by_type_map_tagNode g g' h "Template", List.flatMap_map]
  congr 1
  funext dd
  rw [List.flatMap_map]
  simp only [tagNode_name, tagNode_id]

theorem preventsContrib_tag (tpl : Node) (c : String) (vulns : List Node) :
    preventsContrib (tagNode tpl) c (vulns.map tagNode) =
      preventsContrib tpl c vulns := by
  unfold preventsContrib
  rw [List.flatMap_map]
  simp only [tagNode_name, tagNode_id]

theorem explainsContrib_tag (dd : Node) (c : String) (vulns : List Node) :
    explainsContrib (tagNode dd) c (vulns.map tagNode) =
      explainsContrib dd c vulns := by
  unfold explainsContrib
  rw [List.flatMap_map]
  simp only [tagNode_name, tagNode_id]

theorem usesContrib_tag (integ : Node) (c : String) (tpls : List Node) :
    usesContrib (tagNode integ) c (tpls.map tagNode) =
      usesContrib integ c tpls := by
  unfold usesContrib
  rw [List.flatMap_map]
  simp only [tagNode_name, tagNode_id]

theorem preventsAttempts_tag (g g' : Graph) (fs : FileSys)
    (h : g'.nodes = g.nodes.map tagNode) :
    preventsAttempts g' fs = preventsAttempts g fs := by
  unfold preventsAttempts
  rw [find_by_type_map_tagNode g g' h "Vulnerability",
      find_by_type_map_tagNode g g' h "Template"]
  by_cases hall : ∀ tpl ∈ find_by_type g "Template",
      fs tpl.filePath ≠ FileState.unreadable
  · have hall' : ∀ tpl ∈ (find_by_type g "Template").map tagNode,
        fs tpl.filePath ≠ FileState.unreadable := by
      intro tpl hm
      obtain ⟨x, hx, rfl⟩ := List.mem_map.1 hm
      rw [tagNode_filePath]
      exact hall x hx
    rw [preventsAttemptsAux_ok_of fs _ _ hall', preventsAttemptsAux_ok_of fs _ _ hall]
    congr 1
    rw [List.flatMap_map]
    congr 1
    funext tpl
    unfold scanContrib
    rw [tagNode_filePath]
    cases fs tpl.filePath with
    | missing => rfl
    | unreadable => rfl
    | readable c => exact preventsContrib_tag tpl (pyLower c) _
  · push_neg at hall
    obtain ⟨x, hx, hux⟩ := hall
    rw [preventsAttemptsAux_error_of fs _ _ ⟨x, hx, hux⟩,
        preventsAttemptsAux_error_of fs _ _
          ⟨tagNode x, List.mem_map_of_mem tagNode hx, by rwa [tagNode_filePath]⟩]

theorem explainsAttempts_tag (g g' : Graph) (fs : FileSys)
    (h : g'.nodes = g.nodes.map tagNode) :
    explainsAttempts g' fs = explainsAttempts g fs := by
  unfold explainsAttempts
  rw [find_by_type_map_tagNode g g' h "Vulnerability",
      find_by_type_map_tagNode g g' h "DeepDive"]
  by_cases hall : ∀ dd ∈ find_by_type g "DeepDive",
      fs dd.filePath ≠ FileState.unreadable
  · have hall' : ∀ dd ∈ (find_by_type g "DeepDive").map tagNode,
        fs dd.filePath ≠ FileState.unreadable := by
      intro dd hm
      obtain ⟨x, hx, rfl⟩ := List.mem_map.1 hm
      rw [tagNode_filePath]
      exact hall x hx
    rw [explainsAttemptsAux_ok_of fs _ _ hall', explainsAttemptsAux_ok_of fs _ _ hall]
    congr 1
    rw [List.flatMap_map]
    congr 1
    funext dd
    unfold scanContrib
    rw [tagNode_filePath]
    cases fs dd.filePath with
    | missing => rfl
    | unreadable => rfl
    | readable c => exact explainsContrib_tag dd (pyLower c) _
  · push_neg at hall
    obtain ⟨x, hx, hux⟩ := hall
    rw [explainsAttemptsAux_error_of fs _ _ ⟨x, hx, hux⟩,
        explainsAttemptsAux_error_of fs _ _
          ⟨tagNode x, List.mem_map_of_mem tagNode hx, by rwa [tagNode_filePath]⟩]

theorem usesAttempts_tag (g g' : Graph) (fs : FileSys)
    (h : g'.nodes = g.nodes.map tagNode) :
    usesAttempts g' fs = usesAttempts g fs := by
  unfold usesAttempts
  rw [find_by_type_map_tagNode g g' h "Template",
      find_by_type_map_tagNode g g' h "Integration"]
  by_cases hall : ∀ integ ∈ find_by_type g "Integration",
      fs integ.filePath ≠ FileState.unreadable
  · have hall' : ∀ integ ∈ (find_by_type g "Integration").map tagNode,
        fs integ.filePath ≠ FileState.unreadable := by
      intro integ hm
      obtain ⟨x, hx, rfl⟩ := List.mem_map.1 hm
      rw [tagNode_filePath]
      exact hall x hx
    rw [usesAttemptsAux_ok_of fs _ _ hall', usesAttemptsAux_ok_of fs _ _ hall]
    congr 1
    rw [List.flatMap_map]
    congr 1
    funext integ
    unfold scanContrib
    rw [tagNode_filePath]
    cases fs integ.filePath with
    | missing => rfl
    | unreadable => rfl
    | readable c => exact usesContrib_tag integ (pyLower c) _
  · push_neg at hall
    obtain ⟨x, hx, hux⟩ := hall
    rw [usesAttemptsAux_error_of fs _ _ ⟨x, hx, hux⟩,
        usesAttemptsAux_error_of fs _ _
          ⟨tagNode x, List.mem_map_of_mem tagNode hx, by rwa [tagNode_filePath]⟩]

/-! ## C3: re-run stability of the inference engine -/

theorem enhance_ok_struct (fs : FileSys) (g : Graph) (l3 l4 l5 : List Attempt)
    (h3 : preventsAttempts (runAtts (runAtts ⟨g, 0, []⟩ (demonstratesAttempts g))
      (pairsAttempts (runAtts ⟨g, 0, []⟩ (demonstratesAttempts g)).graph)).graph fs = .ok l3)
    (h4 : explainsAttempts (runAtts (runAtts (runAtts ⟨g, 0, []⟩ (demonstratesAttempts g))
      (pairsAttempts (runAtts ⟨g, 0, []⟩ (demonstratesAttempts g)).graph)) l3).graph fs = .ok l4)
    (h5 : usesAttempts (runAtts (runAtts (runAtts (runAtts ⟨g, 0, []⟩ (demonstratesAttempts g))
      (pairsAttempts (runAtts ⟨g, 0, []⟩ (demonstratesAttempts g)).graph)) l3) l4).graph fs = .ok l5) :
    enhance fs g = .ok (domainsPass (runAtts
      (runAtts (runAtts (runAtts (runAtts (runAtts ⟨g, 0, []⟩ (demonstratesAttempts g))
        (pairsAttempts (runAtts ⟨g, 0, []⟩ (demonstratesAttempts g)).graph)) l3) l4) l5)
      (relatesAttempts (runAtts (runAtts (runAtts (runAtts (runAtts ⟨g, 0, []⟩
        (demonstratesAttempts g))
        (pairsAttempts (runAtts ⟨g, 0, []⟩ (demonstratesAttempts g)).graph)) l3) l4) l5).graph))) := by
  unfold enhance
  dsimp only
  rw [h3]
  dsimp only
  rw [h4]
  dsimp only
  rw [h5]

theorem enhance_ok_cases (fs : FileSys) (g : Graph) (st1 : EnhState)
    (h : enhance fs g = .ok st1) :
    ∃ l3 l4 l5,
      preventsAttempts (runAtts (runAtts ⟨g, 0, []⟩ (demonstratesAttempts g))
        (pairsAttempts (runAtts ⟨g, 0, []⟩ (demonstratesAttempts g)).graph)).graph fs = .ok l3 ∧
      explainsAttempts (runAtts (runAtts (runAtts ⟨g, 0, []⟩ (demonstratesAttempts g))
        (pairsAttempts (runAtts ⟨g, 0, []⟩ (demonstratesAttempts g)).graph)) l3).graph fs = .ok l4 ∧
      usesAttempts (runAtts (runAtts (runAtts (runAtts ⟨g, 0, []⟩ (demonstratesAttempts g))
        (pairsAttempts (runAtts ⟨g, 0, []⟩ (demonstratesAttempts g)).graph)) l3) l4).graph fs = .ok l5 ∧
      st1 = domainsPass (runAtts
        (runAtts (runAtts (runAtts (runAtts (runAtts ⟨g, 0, []⟩ (demonstratesAttempts g))
          (pairsAttempts (runAtts ⟨g, 0, []⟩ (demonstratesAttempts g)).graph)) l3) l4) l5)
        (relatesAttempts (runAtts (runAtts (runAtts (runAtts (runAtts ⟨g, 0, []⟩
          (demonstratesAttempts g))
          (pairsAttempts (runAtts ⟨g, 0, []⟩ (demonstratesAttempts g)).graph)) l3) l4) l5).graph)) := by
  unfold enhance at h
  dsimp only at h
  split at h
  · exact absurd h (by simp)
  · rename_i l3 h3
    split at h
    · exact absurd h (by simp)
    · rename_i l4 h4
      split at h
      · exact absurd h (by simp)
      · rename_i l5 h5
        refine ⟨l3, l4, l5, h3, h4, h5, ?_⟩
        injection h with h
        exact h.symm

/-- C3: for every graph state and filesystem, if a full run of the seven-pass
inference engine (`AutoEnhancer.enhance`) succeeds and produces state `st1`,
then running the engine a second time on the resulting graph also succeeds,
yields an identical edge set, and reports an `edges_added` count of zero in
total and for every relationship type. -/
theorem claim_rerun_stability (fs : FileSys) (g : Graph) (st1 : EnhState)
    (h : enhance fs g = Except.ok st1) :
    ∃ st2, enhance fs st1.graph = Except.ok st2 ∧
      st2.graph.edges = st1.graph.edges ∧ st2.edgesAdded = 0 ∧
      ∀ r, typeCount st2.edgesByType r = 0 := by
  obtain ⟨l3, l4, l5, h3, h4, h5, hst1⟩ := enhance_ok_cases fs g st1 h
  set A1 := demonstratesAttempts g with hA1
  set s1 := runAtts ⟨g, 0, []⟩ A1 with hs1
  set A2 := pairsAttempts s1.graph with hA2
  set s2 := runAtts s1 A2 with hs2
  set s3 := runAtts s2 l3 with hs3
  set s4 := runAtts s3 l4 with hs4
  set s5 := runAtts s4 l5 with hs5
  set A6 := relatesAttempts s5.graph with hA6
  set s6 := runAtts s5 A6 with hs6
  have hn1 : s1.graph.nodes = g.nodes := by rw [hs1, runAtts_nodes]
  have hn2 : s2.graph.nodes = g.nodes := by rw [hs2, runAtts_nodes, hn1]
  have hn3 : s3.graph.nodes = g.nodes := by rw [hs3, runAtts_nodes, hn2]
  have hn4 : s4.graph.nodes = g.nodes := by rw [hs4, runAtts_nodes, hn3]
  have hn5 : s5.graph.nodes = g.nodes := by rw [hs5, runAtts_nodes, hn4]
  have hn6 : s6.graph.nodes = g.nodes := by rw [hs6, runAtts_nodes, hn5]
  have hG1 : st1.graph.nodes = g.nodes.map tagNode := by
    rw [hst1]
    show s6.graph.nodes.map tagNode = g.nodes.map tagNode
    rw [hn6]
  have hG1s1 : st1.graph.nodes = s1.graph.nodes.map tagNode := by rw [hG1, hn1]
  have hG1s2 : st1.graph.nodes = s2.graph.nodes.map tagNode := by rw [hG1, hn2]
  have hG1s3 : st1.graph.nodes = s3.graph.nodes.map tagNode := by rw [hG1, hn3]
  have hG1s4 : st1.graph.nodes = s4.graph.nodes.map tagNode := by rw [hG1, hn4]
  have hG1s5 : st1.graph.nodes = s5.graph.nodes.map tagNode := by rw [hG1, hn5]
  have m2 : ∀ a, satA s1.graph a → satA st1.graph a := by
    intro a ha
    rw [hst1]
    exact satA_domainsPass s6 a (by
      rw [hs6]
      exact satA_runAtts_mono A6 s5 a (by
        rw [hs5]
        exact satA_runAtts_mono l5 s4 a (by
          rw [hs4]
          exact satA_runAtts_mono l4 s3 a (by
            rw [hs3]
            exact satA_runAtts_mono l3 s2 a (by
              rw [hs2]
              exact satA_runAtts_mono A2 s1 a ha)))))
  have m3 : ∀ a, satA s2.graph a → satA st1.graph a := by
    intro a ha
    rw [hst1]
    exact satA_domainsPass s6 a (by
      rw [hs6]
      exact satA_runAtts_mono A6 s5 a (by
        rw [hs5]
        exact satA_runAtts_mono l5 s4 a (by
          rw [hs4]
          exact satA_runAtts_mono l4 s3 a (by
            rw [hs3]
            exact satA_runAtts_mono l3 s2 a ha))))
  have m4 : ∀ a, satA s3.graph a → satA st1.graph a := by
    intro a ha
    rw [hst1]
    exact satA_domainsPass s6 a (by
      rw [hs6]
      exact satA_runAtts_mono A6 s5 a (by
        rw [hs5]
        exact satA_runAtts_mono l5 s4 a (by
          rw [hs4]
          exact satA_runAtts_mono l4 s3 a ha)))
  have m5 : ∀ a, satA s4.graph a → satA st1.graph a := by
    intro a ha
    rw [hst1]
    exact satA_domainsPass s6 a (by
      rw [hs6]
      exact satA_runAtts_mono A6 s5 a (by
        rw [hs5]
        exact satA_runAtts_mono l5 s4 a ha))
  have m6 : ∀ a, satA s5.graph a → satA st1.graph a := by
    intro a ha
    rw [hst1]
    exact satA_domainsPass s6 a (by
      rw [hs6]
      exact satA_runAtts_mono A6 s5 a ha)
  have m7 : ∀ a, satA s6.graph a → satA st1.graph a := by
    intro a ha
    rw [hst1]
    exact satA_domainsPass s6 a ha
  have sat1 : ∀ a ∈ A1, satA st1.graph a := by
    intro a ha
    exact m2 a (by rw [hs1]; exact runAtts_satA_all A1 ⟨g, 0, []⟩ a ha)
  have sat2 : ∀ a ∈ A2, satA st1.graph a := by
    intro a ha
    exact m3 a (by rw [hs2]; exact runAtts_satA_all A2 s1 a ha)
  have sat3 : ∀ a ∈ l3, satA st1.graph a := by
    intro a ha
    exact m4 a (by rw [hs3]; exact runAtts_satA_all l3 s2 a ha)
  have sat4 : ∀ a ∈ l4, satA st1.graph a := by
    intro a ha
    exact m5 a (by rw [hs4]; exact runAtts_satA_all l4 s3 a ha)
  have sat5 : ∀ a ∈ l5, satA st1.graph a := by
    intro a ha
    exact m6 a (by rw [hs5]; exact runAtts_satA_all l5 s4 a ha)
  have sat6 : ∀ a ∈ A6, satA st1.graph a := by
    intro a ha
    exact m7 a (by rw [hs6]; exact runAtts_satA_all A6 s5 a ha)
  have e1 : demonstratesAttempts st1.graph = A1 :=
    (demonstratesAttempts_tag g st1.graph hG1).trans hA1.symm
  have e2 : pairsAttempts st1.graph = A2 :=
    (pairsAttempts_tag s1.graph st1.graph hG1s1).trans hA2.symm
  have e3 : preventsAttempts st1.graph fs = Except.ok l3 :=
    (preventsAttempts_tag s2.graph st1.graph fs hG1s2).trans h3
  have e4 : explainsAttempts st1.graph fs = Except.ok l4 :=
    (explainsAttempts_tag s3.graph st1.graph fs hG1s3).trans h4
  have e5 : usesAttempts st1.graph fs = Except.ok l5 :=
    (usesAttempts_tag s4.graph st1.graph fs hG1s4).trans h5
  have e6 : relatesAttempts st1.graph = A6 :=
    (relatesAttempts_tag s5.graph st1.graph hG1s5).trans hA6.symm
  have noop1 : runAtts ⟨st1.graph, 0, []⟩ A1 = ⟨st1.graph, 0, []⟩ :=
    runAtts_noop A1 ⟨st1.graph, 0, []⟩ sat1
  have noop2 : runAtts ⟨st1.graph, 0, []⟩ A2 = ⟨st1.graph, 0, []⟩ :=
    runAtts_noop A2 ⟨st1.graph, 0, []⟩ sat2
  have noop3 : runAtts ⟨st1.graph, 0, []⟩ l3 = ⟨st1.graph, 0, []⟩ :=
    runAtts_noop l3 ⟨st1.graph, 0, []⟩ sat3
  have noop4 : runAtts ⟨st1.graph, 0, []⟩ l4 = ⟨st1.graph, 0, []⟩ :=
    runAtts_noop l4 ⟨st1.graph, 0, []⟩ sat4
  have noop5 : runAtts ⟨st1.graph, 0, []⟩ l5 = ⟨st1.graph, 0, []⟩ :=
    runAtts_noop l5 ⟨st1.graph, 0, []⟩ sat5
  have noop6 : runAtts ⟨st1.graph, 0, []⟩ A6 = ⟨st1.graph, 0, []⟩ :=
    runAtts_noop A6 ⟨st1.graph, 0, []⟩ sat6
  have hrun2 := enhance_ok_struct fs st1.graph l3 l4 l5
    (by rw [e1, noop1]; dsimp only; rw [e2, noop2]; dsimp only; exact e3)
    (by rw [e1, noop1]; dsimp only; rw [e2, noop2, noop3]; dsimp only; exact e4)
    (by rw [e1, noop1]; dsimp only; rw [e2, noop2, noop3, noop4]; dsimp only; exact e5)
  rw [e1, noop1] at hrun2
  dsimp only at hrun2
  rw [e2, noop2, noop3, noop4, noop5] at hrun2
  dsimp only at hrun2
  rw [e6, noop6] at hrun2
  exact ⟨domainsPass ⟨st1.graph, 0, []⟩, hrun2, rfl, rfl, fun r => rfl⟩

/-- Witness for C3: the engine hypothesis discharged by evaluation on the
empty graph with an empty filesystem. -/
theorem claim_rerun_stability_witness :
    ∃ st2, enhance (fun _ => FileState.missing)
        (⟨⟨[], [], []⟩, 0, []⟩ : EnhState).graph = Except.ok st2 ∧
      st2.graph.edges = (⟨⟨[], [], []⟩, 0, []⟩ : EnhState).graph.edges ∧
      st2.edgesAdded = 0 ∧ ∀ r, typeCount st2.edgesByType r = 0 := by
  exact claim_rerun_stability (fun _ => FileState.missing) ⟨[], [], []⟩
    ⟨⟨[], [], []⟩, 0, []⟩ rfl


/-! ## C1, C2, C4, C5, C6, C7, C8, C9, C10 -/

/-- A triple reported absent by `edgeExists` has count zero. -/
theorem countTriple_eq_zero {g : Graph} {s t r : String}
    (h : edgeExists g s t r = false) : countTriple g s t r = 0 := by
  unfold countTriple
  rw [List.countP_eq_zero]
  intro e he
  unfold edgeExists at h
  rw [List.any_eq_false] at h
  exact h e he

/-- `_add_edge` adds exactly one edge with the inserted triple. -/
theorem countTriple_add_edge (g : Graph) (s t r : String) (p : EdgeProps) :
    countTriple (add_edge g s t r p) s t r = countTriple g s t r + 1 := by
  unfold countTriple add_edge
  rw [List.countP_append]
  simp

/-- C1: for a state in which both endpoint nodes exist and no edge with the
given (source, target, relationship_type) triple is stored, calling the
edge-insert-if-absent operation twice with identical arguments returns `true`
then `false`, the second call leaves the state untouched, and exactly one
edge with the triple is stored afterwards — both for
`AutoEnhancer._add_edge_safe` and for
`ComprehensiveKnowledgeGraphEnhancer._add_edge_safe`.  Both embeddings are
total functions, so neither call can raise. -/
theorem claim_idempotent_insert (st : EnhState) (s t r : String) (p : EdgeProps)
    (hs : nodeExists st.graph s = true) (ht : nodeExists st.graph t = true)
    (habs : edgeExists st.graph s t r = false) :
    (add_edge_safe st s t r p).1 = true ∧
    (add_edge_safe (add_edge_safe st s t r p).2 s t r p).1 = false ∧
    (add_edge_safe (add_edge_safe st s t r p).2 s t r p).2 = (add_edge_safe st s t r p).2 ∧
    countTriple (add_edge_safe (add_edge_safe st s t r p).2 s t r p).2.graph s t r = 1 ∧
    (add_edge_safe_comprehensive st s t r p).1 = true ∧
    (add_edge_safe_comprehensive (add_edge_safe_comprehensive st s t r p).2 s t r p).1 = false ∧
    (add_edge_safe_comprehensive (add_edge_safe_comprehensive st s t r p).2 s t r p).2 =
      (add_edge_safe_comprehensive st s t r p).2 ∧
    countTriple (add_edge_safe_comprehensive (add_edge_safe_comprehensive st s t r p).2 s t r p).2.graph s t r = 1 := by
  have h1 : add_edge_safe st s t r p =
      (true, ⟨add_edge st.graph s t r p, st.edgesAdded + 1, bumpType st.edgesByType r⟩) := by
    unfold add_edge_safe
    rw [hs, ht, habs]
    simp
  have he' : edgeExists (add_edge st.graph s t r p) s t r = true :=
    edgeExists_add_edge st.graph s t r p
  have h2 : add_edge_safe (⟨add_edge st.graph s t r p, st.edgesAdded + 1,
      bumpType st.edgesByType r⟩ : EnhState) s t r p =
      (false, ⟨add_edge st.graph s t r p, st.edgesAdded + 1, bumpType st.edgesByType r⟩) := by
    unfold add_edge_safe
    have hs' : nodeExists (add_edge st.graph s t r p) s = true := hs
    have ht' : nodeExists (add_edge st.graph s t r p) t = true := ht
    rw [hs', ht', he']
    simp
  have hc : countTriple (add_edge st.graph s t r p) s t r = 1 := by
    rw [countTriple_add_edge, countTriple_eq_zero habs]
  have h1c : add_edge_safe_comprehensive st s t r p =
      (true, ⟨add_edge st.graph s t r p, st.edgesAdded + 1, bumpType st.edgesByType r⟩) := by
    unfold add_edge_safe_comprehensive
    rw [habs]
    simp
  have h2c : add_edge_safe_comprehensive (⟨add_edge st.graph s t r p, st.edgesAdded + 1,
      bumpType st.edgesByType r⟩ : EnhState) s t r p =
      (false, ⟨add_edge st.graph s t r p, st.edgesAdded + 1, bumpType st.edgesByType r⟩) := by
    unfold add_edge_safe_comprehensive
    rw [he']
    simp
  rw [h1, h1c]
  exact ⟨rfl, by rw [h2], by rw [h2], by rw [h2]; exact hc,
    rfl, by rw [h2c], by rw [h2c], by rw [h2c]; exact hc⟩

/-- C2 counterexample: the metadata loader inserts edges through
`KnowledgeGraph._add_edge`, which performs no endpoint check (SQLite does not
enforce the declared FOREIGN KEYs without `PRAGMA foreign_keys=ON`).  On a
one-node store, inserting an edge to the nonexistent id `"missing"` stores
the dangling edge and grows the edge count from 0 to 1, refuting the claim
that every insert path rejects a missing endpoint and leaves the edge count
unchanged. -/
theorem claim_referential_integrity_cex :
    nodeExists ⟨[⟨"a", "Vulnerability", "A", "action", "p", ⟨none, none, none, none⟩⟩], [], []⟩ "missing" = false ∧
    (add_edge ⟨[⟨"a", "Vulnerability", "A", "action", "p", ⟨none, none, none, none⟩⟩], [], []⟩
      "a" "missing" "REFERENCES" autoProps).edges.length = 1 ∧
    edgeExists (add_edge ⟨[⟨"a", "Vulnerability", "A", "action", "p", ⟨none, none, none, none⟩⟩], [], []⟩
      "a" "missing" "REFERENCES" autoProps) "a" "missing" "REFERENCES" = true := by
  exact ⟨by decide, by decide, by decide⟩

/-- C2 amended: referential integrity holds for the insert path of
`AutoEnhancer._add_edge_safe` — when either endpoint is missing the call
returns `false` and leaves the state (hence the edge count) unchanged.  The
loader's `_add_edge` and the comprehensive enhancer's `_add_edge_safe`
perform no endpoint check (see the counterexample). -/
theorem claim_referential_integrity_amended (st : EnhState) (s t r : String) (p : EdgeProps)
    (h : nodeExists st.graph s = false ∨ nodeExists st.graph t = false) :
    add_edge_safe st s t r p = (false, st) := by
  unfold add_edge_safe
  rcases h with h | h
  · rw [if_pos h]
  · by_cases hs : nodeExists st.graph s = false
    · rw [if_pos hs]
    · rw [if_neg hs, if_pos h]

/-- C4 counterexample: `KnowledgeGraph._add_node` performs no validation of
`node_type`.  Inserting a node with `type = "Bogus"` into an empty store
stores it, and `find_by_type "Bogus"` returns exactly that node — refuting
the claim that the insert is rejected with `InvalidType` and the node appears
in no `find_by_type` result. -/
theorem claim_type_closure_cex :
    (find_by_type (add_node ⟨[], [], []⟩
      ⟨"x", "Bogus", "B", "action", "p", ⟨none, none, none, none⟩⟩) "Bogus").map Node.id = ["x"] := by
  decide

/-- C4 amended: node insertion accepts any type string: the inserted node is
stored and appears in the `find_by_type` result for its own type (whatever
that is, including `"Bogus"`), and in the result of no other type. -/
theorem claim_type_closure_amended (g : Graph) (n : Node) :
    n ∈ find_by_type (add_node g n) n.type ∧
    nodeExists (add_node g n) n.id = true ∧
    ∀ ty, ty ≠ n.type → n ∉ find_by_type (add_node g n) ty := by
  refine ⟨?_, ?_, ?_⟩
  · unfold find_by_type add_node
    simp
  · unfold nodeExists add_node
    simp
  · intro ty hty hmem
    unfold find_by_type at hmem
    rw [List.mem_filter] at hmem
    exact hty (beq_iff_eq.1 hmem.2).symm

/-- C5 counterexample: upserting the same node twice leaves one row in
`nodes` but two rows in the FTS `search_index` (the index insert is a plain
`INSERT`, not `INSERT OR REPLACE`), and `search` joins one result row per
matching index row — so a single query returns the node twice, refuting the
claim that no read surface returns a node more than once per query. -/
theorem claim_unique_id_cex :
    (search (add_node (add_node ⟨[], [], []⟩
        ⟨"v1", "Vulnerability", "Reentrancy", "action", "q1", ⟨none, none, none, none⟩⟩)
        ⟨"v1", "Vulnerability", "Reentrancy", "action", "q1", ⟨none, none, none, none⟩⟩)
      "reentrancy" 10).map Node.id = ["v1", "v1"] := by
  decide

/-- C5 amended: re-inserting a node id overwrites in the `nodes` table —
after `_add_node` exactly one node row carries that id — but every upsert
appends a fresh `search_index` row, so full-text search can return the same
node once per accumulated index entry (here: twice after two upserts). -/
theorem claim_unique_id_amended :
    (∀ (g : Graph) (n : Node),
      ((add_node g n).nodes.filter fun m => m.id == n.id) = [n]) ∧
    (search (add_node (add_node ⟨[], [], []⟩
        ⟨"v1", "Vulnerability", "Reentrancy", "action", "q1", ⟨none, none, none, none⟩⟩)
        ⟨"v1", "Vulnerability", "Reentrancy", "action", "q1", ⟨none, none, none, none⟩⟩)
      "reentrancy" 10).length = 2 := by
  constructor
  · intro g n
    unfold add_node
    rw [List.filter_append, List.filter_filter]
    simp
  · decide

/-- C10: `find_vulnerabilities` with `min_loss = 0` applies no loss filter at
all and returns exactly the same rows as `min_loss = None`, because the
threshold predicate is attached only when the Python argument is truthy
(`if min_loss:`), and `0`/`0.0` are falsy.  In particular a zero threshold
cannot be used to require the historical-loss field to be present. -/
theorem claim_zero_min_loss (g : Graph) (severity : Option String) :
    find_vulnerabilities g severity (some 0) = find_vulnerabilities g severity none := by
  unfold find_vulnerabilities
  simp

/-- C9 counterexample: `_name_similarity` is computed on the set of regex
word tokens, and a non-empty name with no word characters has an empty word
set, for which the function returns `0.0`.  So `similarity("!", "!") = 0`,
refuting the claim that `similarity(A, A) = 1.0` for every non-empty `A`. -/
theorem claim_jaccard_cex :
    ("!" : String) ≠ "" ∧ name_similarity "!" "!" = 0 ∧ ¬ name_similarity "!" "!" = 1 :=
  ⟨by decide, by decide, by decide⟩

/-- C9 amended: the PairsWith name similarity is symmetric for all names,
and `similarity(A, A) = 1` for every name whose word set is non-empty (that
is, containing at least one regex word character), rather than for every
non-empty string. -/
theorem claim_jaccard_amended :
    (∀ a b, name_similarity a b = name_similarity b a) ∧
    ∀ a, wordSet a ≠ ∅ → name_similarity a a = 1 := by
  constructor
  · intro a b
    show (if wordSet a = ∅ ∨ wordSet b = ∅ then (0 : ℚ)
        else mkRat ((wordSet a ∩ wordSet b).card : Int) ((wordSet a ∪ wordSet b).card)) =
      (if wordSet b = ∅ ∨ wordSet a = ∅ then (0 : ℚ)
        else mkRat ((wordSet b ∩ wordSet a).card : Int) ((wordSet b ∪ wordSet a).card))
    rcases em (wordSet a = ∅) with h1 | h1
    · rw [if_pos (Or.inl h1), if_pos (Or.inr h1)]
    · rcases em (wordSet b = ∅) with h2 | h2
      · rw [if_pos (Or.inr h2), if_pos (Or.inl h2)]
      · rw [if_neg (by tauto), if_neg (by tauto), Finset.inter_comm, Finset.union_comm]
  · intro a h
    show (if wordSet a = ∅ ∨ wordSet a = ∅ then (0 : ℚ)
        else mkRat ((wordSet a ∩ wordSet a).card : Int) ((wordSet a ∪ wordSet a).card)) = 1
    rw [if_neg (by simp [h]), Finset.inter_self, Finset.union_self, Rat.mkRat_eq_div]
    have hc : (wordSet a).card ≠ 0 := by
      rw [Ne, Finset.card_eq_zero]
      exact h
    push_cast
    exact div_self (by exact_mod_cast hc)

/-- C7 counterexample: the keyword-scan passes guard only against a missing
file (`Path.exists()`); a file that exists but cannot be read makes
`read_text()` raise, which aborts the pass — and the whole enhancement run —
rather than skipping the node.  Here one Template whose backing file is
unreadable makes the Prevents pass, and `enhance` itself, raise. -/
theorem claim_unreadable_abort_cex :
    preventsAttempts ⟨[⟨"t1", "Template", "T", "action", "p", ⟨none, none, none, none⟩⟩], [], []⟩
      (fun _ => FileState.unreadable) = Except.error () ∧
    enhance (fun _ => FileState.unreadable)
      ⟨[⟨"t1", "Template", "T", "action", "p", ⟨none, none, none, none⟩⟩], [], []⟩ =
      Except.error () :=
  ⟨rfl, rfl⟩

/-- C7 amended: a node whose backing document is missing is skipped (it
contributes no insertion attempts) and the pass continues; when no scanned
node's file is in the exists-but-unreadable state, each of the three
keyword-scan passes completes without raising.  An existing-but-unreadable
file, by contrast, aborts the pass (see the counterexample). -/
theorem claim_unreadable_abort_amended (g : Graph) (fs : FileSys)
    (hT : ∀ n ∈ find_by_type g "Template", fs n.filePath ≠ FileState.unreadable)
    (hD : ∀ n ∈ find_by_type g "DeepDive", fs n.filePath ≠ FileState.unreadable)
    (hI : ∀ n ∈ find_by_type g "Integration", fs n.filePath ≠ FileState.unreadable) :
    (∃ l, preventsAttempts g fs = Except.ok l) ∧
    (∃ l, explainsAttempts g fs = Except.ok l) ∧
    (∃ l, usesAttempts g fs = Except.ok l) ∧
    ∀ n, fs n.filePath = FileState.missing →
      ∀ contrib, scanContrib contrib fs n = [] := by
  refine ⟨⟨_, preventsAttemptsAux_ok_of fs _ _ hT⟩,
    ⟨_, explainsAttemptsAux_ok_of fs _ _ hD⟩,
    ⟨_, usesAttemptsAux_ok_of fs _ _ hI⟩, ?_⟩
  intro n hn contrib
  unfold scanContrib
  rw [hn]

/-- The net `inferred_domain` written by the domain loop: the last matching
table entry wins, or the field is untouched when nothing matches. -/
theorem tagFold_domain (tbl : List (String × List String)) (n acc : Node) :
    (tbl.foldl (tagStep n) acc).data.inferredDomain =
      match (tbl.filter fun p => domainMatches n p.2).getLast? with
      | some p => some p.1
      | none => acc.data.inferredDomain := by
  induction tbl generalizing acc with
  | nil => rfl
  | cons p rest ih =>
    rw [List.foldl_cons]
    by_cases hm : domainMatches n p.2
    · rw [List.filter_cons, if_pos hm, ih]
      cases hl : (rest.filter fun q => domainMatches n q.2) with
      | nil =>
        show (tagStep n acc p).data.inferredDomain = some p.1
        unfold tagStep
        rw [if_pos hm]
      | cons q l =>
        rw [List.getLast?_cons_cons]
        cases hgl : (q :: l).getLast? with
        | none => exact absurd hgl (by simp)
        | some x => rfl
    · rw [List.filter_cons, if_neg hm, ih]
      unfold tagStep
      rw [if_neg hm]

/-- C8 counterexample: the domain loop has no `break`, so every matching
domain overwrites `inferred_domain` and the *last* match in table order
wins.  For a node named `"defi nft"` the first matching domain in table
order is DeFi (`List.find?` over the table is the claim's first-match
reading), yet the pass stamps NFT. -/
theorem claim_domain_tagging_cex :
    ((domain_keywords.find? fun p => domainMatches
        ⟨"n1", "Template", "defi nft", "action", "", ⟨none, none, none, none⟩⟩ p.2).map
      Prod.fst) = some "DeFi" ∧
    ((domainsPass ⟨⟨[⟨"n1", "Template", "defi nft", "action", "",
        ⟨none, none, none, none⟩⟩], [], []⟩, 0, []⟩).graph.nodes.map
      fun n => n.data.inferredDomain) = [some "NFT"] := by
  exact ⟨by decide, by decide⟩

/-- C8 amended: the DomainTagging pass scans name + location against the
fixed domain keyword table and stamps the *last* matching domain in table
order into the node's payload (leaving it unchanged when nothing matches);
it mutates the existing node rows in place and adds no edge (and touches no
counter). -/
theorem claim_domain_tagging_amended (st : EnhState) :
    (domainsPass st).graph.edges = st.graph.edges ∧
    (domainsPass st).edgesAdded = st.edgesAdded ∧
    (domainsPass st).graph.nodes = st.graph.nodes.map tagNode ∧
    ∀ n, (tagNode n).data.inferredDomain =
      match (domain_keywords.filter fun p => domainMatches n p.2).getLast? with
      | some p => some p.1
      | none => n.data.inferredDomain :=
  ⟨rfl, rfl, rfl, fun n => tagFold_domain domain_keywords n n⟩

/-- Membership in the contribution of one scanned node. -/
theorem scanContrib_mem (contrib : Node → String → List Attempt) (fs : FileSys)
    (n : Node) (a : Attempt) :
    a ∈ scanContrib contrib fs n ↔
      ∃ c, fs n.filePath = FileState.readable c ∧ a ∈ contrib n (pyLower c) := by
  unfold scanContrib
  cases hf : fs n.filePath with
  | missing => simp
  | unreadable => simp
  | readable c =>
    constructor
    · intro ha
      exact ⟨c, rfl, ha⟩
    · rintro ⟨c', hc', ha⟩
      injection hc' with h
      subst h
      exact ha

/-- A successful Explains scan yields exactly the attempts of its readable
DeepDives, in loop order. -/
theorem explainsAttempts_ok_flat (g : Graph) (fs : FileSys) (l : List Attempt)
    (h : explainsAttempts g fs = Except.ok l) :
    l = (find_by_type g "DeepDive").flatMap
      (scanContrib (fun n c => explainsContrib n c (find_by_type g "Vulnerability")) fs) := by
  by_cases hall : ∀ dd ∈ find_by_type g "DeepDive", fs dd.filePath ≠ FileState.unreadable
  · have h2 := explainsAttemptsAux_ok_of fs (find_by_type g "Vulnerability")
      (find_by_type g "DeepDive") hall
    unfold explainsAttempts at h
    rw [h2] at h
    injection h with h
    exact h.symm
  · push_neg at hall
    have h2 := explainsAttemptsAux_error_of fs (find_by_type g "Vulnerability")
      (find_by_type g "DeepDive") hall
    unfold explainsAttempts at h
    rw [h2] at h
    exact absurd h (by simp)

/-- Membership in the Explains contribution of one DeepDive. -/
theorem explainsContrib_mem (dd : Node) (content : String) (vulns : List Node)
    (a : Attempt) :
    a ∈ explainsContrib dd content vulns ↔
      ∃ v ∈ vulns, 2 ≤ mentionsCount v.name content ∧
        a = ⟨dd.id, v.id, "EXPLAINS", explainsProps (mentionsCount v.name content)⟩ := by
  unfold explainsContrib
  rw [List.mem_flatMap]
  constructor
  · rintro ⟨v, hv, ha⟩
    dsimp only at ha
    by_cases hm : 2 ≤ mentionsCount v.name content
    · rw [if_pos hm, List.mem_singleton] at ha
      exact ⟨v, hv, hm, ha⟩
    · rw [if_neg hm] at ha
      exact absurd ha (List.not_mem_nil a)
  · rintro ⟨v, hv, hm, ha⟩
    refine ⟨v, hv, ?_⟩
    dsimp only
    rw [if_pos hm, List.mem_singleton]
    exact ha

/-- C6: in a store with unique node ids, for a DeepDive `dd` whose backing
document is readable and a Vulnerability `v` with no prior EXPLAINS edge,
the Explains pass stores the edge `dd --EXPLAINS--> v` iff the number of
`v`'s associated keywords occurring in the lowercased document text is at
least 2 (so exactly one matching keyword produces no edge), and when the
edge is stored, that count is recorded in the edge's `mentions` property. -/
theorem claim_keyword_threshold (st : EnhState) (fs : FileSys) (l : List Attempt)
    (dd v : Node) (c : String)
    (hdd : dd ∈ st.graph.nodes) (hddty : dd.type = "DeepDive")
    (hv : v ∈ st.graph.nodes) (hvty : v.type = "Vulnerability")
    (hnodup : (st.graph.nodes.map Node.id).Nodup)
    (hfile : fs dd.filePath = FileState.readable c)
    (hpre : edgeExists st.graph dd.id v.id "EXPLAINS" = false)
    (hrun : explainsAttempts st.graph fs = Except.ok l) :
    (edgeExists (runAtts st l).graph dd.id v.id "EXPLAINS" = true ↔
      2 ≤ mentionsCount v.name (pyLower c)) ∧
    (2 ≤ mentionsCount v.name (pyLower c) →
      (⟨dd.id, v.id, "EXPLAINS", explainsProps (mentionsCount v.name (pyLower c))⟩ : Edge) ∈
        (runAtts st l).graph.edges) := by
  have hl := explainsAttempts_ok_flat st.graph fs l hrun
  have hddf : dd ∈ find_by_type st.graph "DeepDive" :=
    List.mem_filter.2 ⟨hdd, by rw [hddty]; exact beq_self_eq_true _⟩
  have hvf : v ∈ find_by_type st.graph "Vulnerability" :=
    List.mem_filter.2 ⟨hv, by rw [hvty]; exact beq_self_eq_true _⟩
  -- every attempt in `l` carrying our (source, target, type) triple is the
  -- canonical one, and its existence forces the threshold
  have huniq : ∀ a ∈ l, a.src = dd.id → a.tgt = v.id → a.rel = "EXPLAINS" →
      2 ≤ mentionsCount v.name (pyLower c) ∧
      a = ⟨dd.id, v.id, "EXPLAINS", explainsProps (mentionsCount v.name (pyLower c))⟩ := by
    intro a ha hsrc htgt hrel
    rw [hl, List.mem_flatMap] at ha
    obtain ⟨dd', hdd', hsc⟩ := ha
    obtain ⟨c', hc', hcon⟩ := (scanContrib_mem _ fs dd' a).1 hsc
    obtain ⟨v', hv', hm', hav⟩ := (explainsContrib_mem dd' (pyLower c') _ a).1 hcon
    have hdd'id : dd'.id = dd.id := by rw [hav] at hsrc; exact hsrc
    have hdd'eq : dd' = dd :=
      List.inj_on_of_nodup_map hnodup (List.mem_filter.1 hdd').1 hdd hdd'id
    subst hdd'eq
    have hc'c : c' = c := by
      rw [hfile] at hc'
      injection hc' with h
      exact h.symm
    subst hc'c
    have hv'id : v'.id = v.id := by rw [hav] at htgt; exact htgt
    have hv'eq : v' = v :=
      List.inj_on_of_nodup_map hnodup (List.mem_filter.1 hv').1 hv hv'id
    subst hv'eq
    exact ⟨hm', hav⟩
  have hmem : 2 ≤ mentionsCount v.name (pyLower c) →
      (⟨dd.id, v.id, "EXPLAINS", explainsProps (mentionsCount v.name (pyLower c))⟩ :
        Attempt) ∈ l := by
    intro hm
    rw [hl, List.mem_flatMap]
    refine ⟨dd, hddf, (scanContrib_mem _ fs dd _).2 ⟨c, hfile, ?_⟩⟩
    exact (explainsContrib_mem dd (pyLower c) _ _).2 ⟨v, hvf, hm, rfl⟩
  constructor
  · constructor
    · intro he
      obtain ⟨p, hp⟩ := (edgeExists_iff _ _ _ _).1 he
      rcases runAtts_edges_sub l st _ hp with hin | ⟨a, hal, hea⟩
      · exact absurd hin (edgeExists_false_notMem st.graph _ _ _ hpre p)
      · have h1 : a.src = dd.id := by
          have := congrArg Edge.sourceId hea
          exact this.symm
        have h2 : a.tgt = v.id := by
          have := congrArg Edge.targetId hea
          exact this.symm
        have h3 : a.rel = "EXPLAINS" := by
          have := congrArg Edge.relationshipType hea
          exact this.symm
        exact (huniq a hal h1 h2 h3).1
    · intro hm
      exact runAtts_complete l st _ (hmem hm) (nodeExists_of_mem hdd)
        (nodeExists_of_mem hv)
  · intro hm
    have he : edgeExists (runAtts st l).graph dd.id v.id "EXPLAINS" = true :=
      runAtts_complete l st _ (hmem hm) (nodeExists_of_mem hdd) (nodeExists_of_mem hv)
    obtain ⟨p, hp⟩ := (edgeExists_iff _ _ _ _).1 he
    rcases runAtts_edges_sub l st _ hp with hin | ⟨a, hal, hea⟩
    · exact absurd hin (edgeExists_false_notMem st.graph _ _ _ hpre p)
    · have h1 : a.src = dd.id := (congrArg Edge.sourceId hea).symm
      have h2 : a.tgt = v.id := (congrArg Edge.targetId hea).symm
      have h3 : a.rel = "EXPLAINS" := (congrArg Edge.relationshipType hea).symm
      have := (huniq a hal h1 h2 h3).2
      rw [this] at hea
      rw [hea] at hp
      exact hp

/-- Witness for C1 at a concrete two-node no-edge state. -/
theorem claim_idempotent_insert_witness :
    nodeExists wState.graph "v1" = true ∧ nodeExists wState.graph "b" = true ∧
    edgeExists wState.graph "v1" "b" "USES" = false ∧
    (add_edge_safe wState "v1" "b" "USES" autoProps).1 = true ∧
    (add_edge_safe (add_edge_safe wState "v1" "b" "USES" autoProps).2
      "v1" "b" "USES" autoProps).1 = false :=
  ⟨by decide, by decide, by decide,
    (claim_idempotent_insert wState "v1" "b" "USES" autoProps
      (by decide) (by decide) (by decide)).1,
    (claim_idempotent_insert wState "v1" "b" "USES" autoProps
      (by decide) (by decide) (by decide)).2.1⟩

/-- Witness for C2 (amended) at a concrete state with a missing target. -/
theorem claim_referential_integrity_amended_witness :
    nodeExists wState.graph "zzz" = false ∧
    add_edge_safe wState "v1" "zzz" "USES" autoProps = (false, wState) :=
  ⟨by decide, claim_referential_integrity_amended wState "v1" "zzz" "USES" autoProps
    (Or.inr (by decide))⟩

/-- Witness for C4 (amended) at a concrete `"Bogus"`-typed node. -/
theorem claim_type_closure_amended_witness :
    (⟨"x", "Bogus", "B", "action", "p", noData⟩ : Node) ∈
      find_by_type (add_node ⟨[], [], []⟩ ⟨"x", "Bogus", "B", "action", "p", noData⟩) "Bogus" ∧
    ("Vulnerability" : String) ≠ "Bogus" ∧
    (⟨"x", "Bogus", "B", "action", "p", noData⟩ : Node) ∉
      find_by_type (add_node ⟨[], [], []⟩ ⟨"x", "Bogus", "B", "action", "p", noData⟩)
        "Vulnerability" :=
  ⟨(claim_type_closure_amended ⟨[], [], []⟩ ⟨"x", "Bogus", "B", "action", "p", noData⟩).1,
   by decide,
   (claim_type_closure_amended ⟨[], [], []⟩
     ⟨"x", "Bogus", "B", "action", "p", noData⟩).2.2 "Vulnerability" (by decide)⟩

/-- Witness for C9 (amended): both parts applied at concrete names. -/
theorem claim_jaccard_amended_witness :
    name_similarity "uniswap v3" "curve pool" =
      name_similarity "curve pool" "uniswap v3" ∧
    wordSet "flash loan" ≠ ∅ ∧
    name_similarity "flash loan" "flash loan" = 1 :=
  ⟨claim_jaccard_amended.1 "uniswap v3" "curve pool", by decide,
   claim_jaccard_amended.2 "flash loan" (by decide)⟩

/-- Witness for C7 (amended) on a concrete store where no scanned file is
unreadable. -/
theorem claim_unreadable_abort_amended_witness :
    (∀ n ∈ find_by_type wSt.graph "Template", wFs n.filePath ≠ FileState.unreadable) ∧
    (∃ l, preventsAttempts wSt.graph wFs = Except.ok l) ∧
    (∃ l, explainsAttempts wSt.graph wFs = Except.ok l) :=
  ⟨by decide,
   (claim_unreadable_abort_amended wSt.graph wFs (by decide) (by decide) (by decide)).1,
   (claim_unreadable_abort_amended wSt.graph wFs (by decide) (by decide) (by decide)).2.1⟩

/-- Witness for C6 on a concrete DeepDive/Vulnerability pair whose document
mentions two of the vulnerability keywords. -/
theorem claim_keyword_threshold_witness :
    wDD ∈ wSt.graph.nodes ∧ wVuln ∈ wSt.graph.nodes ∧
    (wSt.graph.nodes.map Node.id).Nodup ∧
    wFs wDD.filePath = FileState.readable "Reentrancy attack is reentrant" ∧
    edgeExists wSt.graph "dd1" "v1" "EXPLAINS" = false ∧
    explainsAttempts wSt.graph wFs = Except.ok wL ∧
    2 ≤ mentionsCount "Reentrancy" (pyLower "Reentrancy attack is reentrant") ∧
    edgeExists (runAtts wSt wL).graph "dd1" "v1" "EXPLAINS" = true := by
  refine ⟨by decide, by decide, by decide, rfl, by decide, rfl, by decide, ?_⟩
  exact (claim_keyword_threshold wSt wFs wL wDD wVuln
    "Reentrancy attack is reentrant" (by decide) rfl (by decide) rfl
    (by decide) rfl (by decide) rfl).1.2 (by decide)

end KG

